import Mathlib

/-!
Verification of the apricot BitTorrent client against its design document.

The Go sources are shallowly embedded below: Go byte slices and Go strings
become `List Nat` (byte values) or `List Char`, Go ints become `Nat`/`Int`
(claims only exercise non-negative indices where `Nat` is used), fallible
Go code returns `GoResult`, and a Go runtime panic (out-of-range slice
index, failed type assertion) is the distinguished outcome
`GoResult.crashed` / `Option.none`.  Network connections are embedded as
explicit byte streams (`List Nat`) threaded through the functions that read
from them.
-/

/-- Outcome of a Go computation: a normal value, an error return value
carrying its message, a runtime panic, or fuel exhaustion of the embedding
(used only by the recursive Bencode parser; never reachable on the inputs
reasoned about below). -/
inductive GoResult (α : Type) where
  | ok (val : α)
  | err (msg : String)
  | crashed
  | nofuel
deriving DecidableEq, Repr

/-! ## BitField (src/unnamed/part_001, lines 48-72)

A `BitField` holds the bytes of a bitfield (5) peer message.  `HasPiece`
and `SetPiece` are translated expression-for-expression; in particular the
Go source of `HasPiece` tests `pieceByte & (1<<7 - offset)`, and in Go the
shift binds tighter than the subtraction, so the mask is `128 - offset`,
not `1 << (7 - offset)`.  `SetPiece` writes `1 << (7 - offset)` with
explicit parentheses.  Indexing a slice out of range panics in Go, hence
the `Option` results (`none` = panic). -/

structure BitField where
  Field : List Nat
  Length : Nat
deriving DecidableEq, Repr

def BitField.HasPiece (bf : BitField) (index : Nat) : Option Bool :=
  if index ≥ bf.Length then
    some false
  else
    match bf.Field[index / 8]? with
    | none => none
    | some pieceByte =>
      let offset := index % 8
      some (decide (Nat.land pieceByte (128 - offset) ≠ 0))

def BitField.SetPiece (bf : BitField) (index : Nat) : Option BitField :=
  if index ≥ bf.Length then
    some bf
  else
    let offset := index % 8
    match bf.Field[index / 8]? with
    | none => none
    | some b =>
      some { bf with Field := bf.Field.set (index / 8) (Nat.lor b (Nat.shiftLeft 1 (7 - offset))) }

/-! ## Decimal rendering (model of fmt's %d verb and of strconv.Atoi)

Go renders integers in base ten with a leading minus sign for negatives;
strconv.Atoi accepts an optional sign followed by one or more decimal
digits (leading zeros included) and fails on anything else. -/

def digitChar (d : Nat) : Char :=
  match d with
  | 0 => '0' | 1 => '1' | 2 => '2' | 3 => '3' | 4 => '4'
  | 5 => '5' | 6 => '6' | 7 => '7' | 8 => '8' | 9 => '9'
  | _ => '*'

/-- Decimal digits of a positive natural number, most significant first.
The first argument is fuel bounding the number of digits; any fuel above
the argument itself is enough (see natDecimalAux_eq_digits below). -/
def natDecimalAux : Nat → Nat → List Char
  | 0, _ => []
  | fuel + 1, n => if n = 0 then [] else natDecimalAux fuel (n / 10) ++ [digitChar (n % 10)]

/-- Decimal digits of a natural number, most significant first ("%d"). -/
def natDecimal (n : Nat) : List Char :=
  if n = 0 then ['0'] else natDecimalAux (n + 1) n

/-- Decimal rendering of a signed integer ("%d"). -/
def intDecimal (i : Int) : List Char :=
  if i < 0 then '-' :: natDecimal i.natAbs else natDecimal i.toNat

def isDigitChar (c : Char) : Bool :=
  decide ('0' ≤ c) && decide (c ≤ '9')

def digitVal (c : Char) : Nat := c.toNat - '0'.toNat

/-- Reads a non-empty all-digit run as a natural number (helper for Atoi). -/
def parseDigits (s : List Char) : Option Nat :=
  if s = [] then none
  else if s.all isDigitChar then some (s.foldl (fun acc c => acc * 10 + digitVal c) 0)
  else none

/-- Model of Go strconv.Atoi: optional single sign, then decimal digits.
Leading zeros and "-0" are accepted, the empty string is rejected.  The
64-bit range check is not modelled; no input reasoned about overflows. -/
def strconvAtoi (s : List Char) : Option Int :=
  match s with
  | [] => none
  | c :: rest =>
    if c = '+' then (parseDigits rest).map (fun n => (n : Int))
    else if c = '-' then (parseDigits rest).map (fun n => -(n : Int))
    else (parseDigits (c :: rest)).map (fun n => (n : Int))

/-! ## Tracker peers and the compact peer list
(src/unnamed/part_000, lines 161-166 and 271-286)

compactToPeerList walks the peers byte string six bytes at a time while
`idx < len(format)`, slicing `format[idx:idx+4]` and `format[idx+4:idx+6]`;
a Go slice expression whose upper bound exceeds the string length panics,
modelled as `none`.  The loop index idx is embedded as the remaining
suffix `format[idx:]`: the loop guard is that suffix being non-empty, and a
non-empty suffix shorter than six bytes makes one of the two slice
expressions panic. -/

structure TrackerPeer where
  Ip : List Char
  Port : Nat
  PeerId : List Nat := []
deriving DecidableEq, Repr

/-- Rendering fmt.Sprintf with verb pattern d.d.d.d over the four address bytes. -/
def ipDotted (b0 b1 b2 b3 : Nat) : List Char :=
  natDecimal b0 ++ '.' :: natDecimal b1 ++ '.' :: natDecimal b2 ++ '.' :: natDecimal b3

/-- Model of binary.BigEndian.Uint16 applied to a two-byte slice. -/
def be16 (b0 b1 : Nat) : Nat := b0 * 256 + b1

def compactLoop : List Nat → Option (List TrackerPeer)
  | [] => some []
  | b0 :: b1 :: b2 :: b3 :: p0 :: p1 :: rest =>
    match compactLoop rest with
    | none => none
    | some peers => some ({ Ip := ipDotted b0 b1 b2 b3, Port := be16 p0 p1 } :: peers)
  | _ => none

def compactToPeerList (format : List Nat) : Option (List TrackerPeer) :=
  compactLoop format

/-! ## Peer handshake serialization

Two revisions of Handshake.Serialized exist in the sources.  The revision
in src/torrent/tcp.go (lines 94-109) appends the protocol length byte, the
protocol label, the info hash and the peer id — it never appends the
Reserved field.  The revision in src/unnamed/part_001 (lines 88-105)
appends the Reserved bytes between the label and the info hash.  Strings
and byte slices are both byte lists here. -/

structure Handshake where
  Protocol : List Nat
  Reserved : List Nat
  InfoHash : List Nat
  PeerId : List Nat
deriving DecidableEq, Repr

namespace TcpGo

/-- Serialized as written in src/torrent/tcp.go: length byte, protocol,
info hash, peer id.  byte(len) truncates to 8 bits. -/
def Serialized (h : Handshake) : List Nat :=
  (h.Protocol.length % 256) :: h.Protocol ++ h.InfoHash ++ h.PeerId

end TcpGo

namespace MsgGo

/-- Serialized as written in src/unnamed/part_001: length byte, protocol,
reserved, info hash, peer id. -/
def Serialized (h : Handshake) : List Nat :=
  (h.Protocol.length % 256) :: h.Protocol ++ h.Reserved ++ h.InfoHash ++ h.PeerId

end MsgGo

/-! ## Bencode tokens

Decoded Bencode values travel through the Go sources as untyped values
(integer, string, list of values, map from string to value).  They are
embedded as the mutually inductive Token / TokenList / TokenDict; a
TokenDict lists the entries of the Go map in some order (Go maps are
unordered, so any order represents the same map). -/

mutual
inductive Token where
  | int (i : Int)
  | str (s : List Char)
  | list (l : TokenList)
  | dict (d : TokenDict)
inductive TokenList where
  | nil
  | cons (t : Token) (ts : TokenList)
inductive TokenDict where
  | nil
  | cons (key : List Char) (val : Token) (ds : TokenDict)
end

def TokenList.append : TokenList → TokenList → TokenList
  | .nil, bs => bs
  | .cons a as, bs => .cons a (as.append bs)

/-- Go map assignment m[k] = v: overwrite the entry for k, or add one. -/
def TokenDict.set : TokenDict → List Char → Token → TokenDict
  | .nil, k, v => .cons k v .nil
  | .cons k0 v0 ds, k, v =>
    if k0 = k then .cons k0 v ds else .cons k0 v0 (ds.set k v)

/-- Go map read m[k]: the value stored at k, if any. -/
def TokenDict.get : TokenDict → List Char → Option Token
  | .nil, _ => none
  | .cons k0 v0 ds, k => if k0 = k then some v0 else ds.get k

def TokenDict.concat : TokenDict → TokenDict → TokenDict
  | .nil, b => b
  | .cons k v ds, b => .cons k v (ds.concat b)

def TokenDict.hasKey : TokenDict → List Char → Bool
  | .nil, _ => false
  | .cons k0 _ ds, k => k0 = k || ds.hasKey k

/-! ## Scanner (src/unnamed/part_000, lines 9-99)

The scanner is a cursor (contents, index) moving forward over a fixed
string; it is embedded as the remaining suffix contents[index:].  Peek
fails with io.EOF when fewer than the requested characters remain;
Advance past the end saturates. -/

/-- Whitespace for Scanner.AdvanceWhitespace: unicode.IsSpace over a single
byte, which holds for tab, LF, VT, FF, CR, space, NEL (0x85), NBSP (0xA0). -/
def isSpaceByte (c : Char) : Bool :=
  c = ' ' || c = '\t' || c = '\n' || c = (Char.ofNat 11) || c = (Char.ofNat 12) ||
    c = '\r' || c = (Char.ofNat 0x85) || c = (Char.ofNat 0xA0)

def AdvanceWhitespace : List Char → List Char
  | [] => []
  | c :: cs => if isSpaceByte c then AdvanceWhitespace cs else c :: cs

/-- Scanner.ConsumeUntil: the consumed prefix, whether the delimiter was
found (it is not consumed), and the remaining suffix. -/
def ConsumeUntil (delim : Char) : List Char → List Char × Bool × List Char
  | [] => ([], false, [])
  | c :: cs =>
    if c = delim then ([], true, c :: cs)
    else
      let r := ConsumeUntil delim cs
      (c :: r.1, r.2.1, r.2.2)

/-! ## Bencode decoder (src/cmd/torrent/bencode.go, lines 23-185)

ParseBencodeToken recurses through ParseBencodeList / ParseBencodeDictionary;
the embedding bounds that recursion with fuel (first argument), decremented
on every call.  DecodeBencode supplies fuel length+1, which the round-trip
proofs show is never exhausted on encoder output; GoResult.nofuel marks the
(unreached) exhaustion case.  The list and dictionary parsing loops are the
bodies of Go's ParseBencodeList / ParseBencodeDictionary with the
accumulated tokens as an argument; the Advance(1) past the opening l or d
happens at the call site in ParseBencodeToken. -/

def ParseBencodeString (s : List Char) : GoResult (Token × List Char) :=
  let r := ConsumeUntil ':' s
  if r.2.1 = false then .err "expected length specification"
  else
    match strconvAtoi r.1 with
    | none => .err "length conversion errored"
    | some n =>
      let rest := (r.2.2).drop 1
      if n.toNat ≤ rest.length then .ok (.str (rest.take n.toNat), rest.drop n.toNat)
      else .err "end of input"

def ParseBencodeInteger (s : List Char) : GoResult (Token × List Char) :=
  let r := ConsumeUntil 'e' (s.drop 1)
  if r.2.1 = false then .err "expected end of integer"
  else
    match strconvAtoi r.1 with
    | none => .err "integer conversion errored"
    | some n => .ok (.int n, (r.2.2).drop 1)

mutual

def ParseBencodeToken : Nat → List Char → GoResult (Token × List Char)
  | 0, _ => .nofuel
  | fuel + 1, s =>
    match s.head? with
    | none => .err "end of input"
    | some c =>
      if isDigitChar c then ParseBencodeString s
      else if c = 'i' then ParseBencodeInteger s
      else if c = 'l' then
        match ParseBencodeList fuel .nil (s.drop 1) with
        | .ok (ts, rest) => .ok (.list ts, rest)
        | .err m => .err m
        | .crashed => .crashed
        | .nofuel => .nofuel
      else if c = 'd' then
        match ParseBencodeDictionary fuel .nil (s.drop 1) with
        | .ok (ds, rest) => .ok (.dict ds, rest)
        | .err m => .err m
        | .crashed => .crashed
        | .nofuel => .nofuel
      else .err "unexpected character"

def ParseBencodeList : Nat → TokenList → List Char → GoResult (TokenList × List Char)
  | 0, _, _ => .nofuel
  | fuel + 1, acc, s =>
    match s with
    | [] => .ok (acc, [])
    | _ :: _ =>
      let s1 := AdvanceWhitespace s
      match s1.head? with
      | none => .err "end of input"
      | some c =>
        if c = 'e' then .ok (acc, s1.drop 1)
        else
          match ParseBencodeToken fuel s1 with
          | .ok (t, rest) => ParseBencodeList fuel (acc.append (.cons t .nil)) rest
          | .err m => .err m
          | .crashed => .crashed
          | .nofuel => .nofuel

def ParseBencodeDictionary : Nat → TokenDict → List Char → GoResult (TokenDict × List Char)
  | 0, _, _ => .nofuel
  | fuel + 1, acc, s =>
    match s with
    | [] => .ok (acc, [])
    | _ :: _ =>
      let s1 := AdvanceWhitespace s
      match s1.head? with
      | none => .err "end of input"
      | some c =>
        if c = 'e' then .ok (acc, s1.drop 1)
        else
          match ParseBencodeToken fuel s1 with
          | .ok (kt, rest1) =>
            match ParseBencodeToken fuel (AdvanceWhitespace rest1) with
            | .ok (vt, rest2) =>
              match kt with
              | .str k => ParseBencodeDictionary fuel (acc.set k vt) rest2
              | _ => .crashed
            | .err m => .err m
            | .crashed => .crashed
            | .nofuel => .nofuel
          | .err m => .err m
          | .crashed => .crashed
          | .nofuel => .nofuel

end

def DecodeBencodeLoop : Nat → TokenList → List Char → GoResult TokenList
  | 0, _, _ => .nofuel
  | fuel + 1, acc, s =>
    match s with
    | [] => .ok acc
    | _ :: _ =>
      match ParseBencodeToken fuel (AdvanceWhitespace s) with
      | .ok (t, rest) => DecodeBencodeLoop fuel (acc.append (.cons t .nil)) rest
      | .err m => .err m
      | .crashed => .crashed
      | .nofuel => .nofuel

/-- Decodes a Bencoded string into the sequence of its top-level tokens. -/
def DecodeBencode (contents : List Char) : GoResult TokenList :=
  DecodeBencodeLoop (contents.length + 1) .nil contents

/-! ## Bencode encoder (src/cmd/torrent/bencode.go, lines 189-236)

EncodeBencode walks the value by runtime kind.  For a dictionary Go
collects the keys, sorts them ascending as raw strings, and emits each key
followed by the value looked up at that key; since map keys are unique,
this equals sorting the (key, encoded key ++ encoded value) pairs by key
and concatenating, which is how the sort is embedded (the per-entry
encodings are computed structurally, then sorted).  Every Token shape is
encodable, so the NotEncodable error branch of the Go source is
unreachable here. -/

/-- Go string comparison (byte-wise lexicographic, shorter prefix first). -/
def strLtB : List Char → List Char → Bool
  | [], [] => false
  | [], _ :: _ => true
  | _ :: _, [] => false
  | a :: as, b :: bs => if a = b then strLtB as bs else decide (a < b)

def insertPair (p : List Char × List Char) :
    List (List Char × List Char) → List (List Char × List Char)
  | [] => [p]
  | q :: qs => if strLtB q.1 p.1 then q :: insertPair p qs else p :: q :: qs

/-- Insertion sort by key, the embedding of slices.Sort(orderedKeys). -/
def sortPairs : List (List Char × List Char) → List (List Char × List Char)
  | [] => []
  | p :: ps => insertPair p (sortPairs ps)

def flattenPairs (ps : List (List Char × List Char)) : List Char :=
  (ps.map Prod.snd).flatten

/-- Encoding of a Go string: decimal length, colon, raw bytes. -/
def encodeStr (s : List Char) : List Char :=
  natDecimal s.length ++ ':' :: s

mutual

def EncodeBencode : Token → List Char
  | .int i => 'i' :: intDecimal i ++ ['e']
  | .str s => encodeStr s
  | .list l => 'l' :: EncodeBencodeItems l ++ ['e']
  | .dict d => 'd' :: flattenPairs (sortPairs (EncodeBencodeEntries d)) ++ ['e']

def EncodeBencodeItems : TokenList → List Char
  | .nil => []
  | .cons t ts => EncodeBencode t ++ EncodeBencodeItems ts

def EncodeBencodeEntries : TokenDict → List (List Char × List Char)
  | .nil => []
  | .cons k v ds => (k, encodeStr k ++ EncodeBencode v) :: EncodeBencodeEntries ds

end

/-! ## Well-formed tokens and parser fuel

wfTok singles out the values of the round-trip property: dictionaries have
strictly ascending keys (hence unique), at every depth.  sizeTok bounds the
fuel the parser spends reading back an encoded token. -/

def dictKeysAbove (k : List Char) : TokenDict → Bool
  | .nil => true
  | .cons k0 _ ds => strLtB k k0 && dictKeysAbove k ds

mutual

def wfTok : Token → Bool
  | .int _ => true
  | .str _ => true
  | .list l => wfTokList l
  | .dict d => wfTokDict d

def wfTokList : TokenList → Bool
  | .nil => true
  | .cons t ts => wfTok t && wfTokList ts

def wfTokDict : TokenDict → Bool
  | .nil => true
  | .cons k v ds => dictKeysAbove k ds && wfTok v && wfTokDict ds

end

mutual

def sizeTok : Token → Nat
  | .int _ => 1
  | .str _ => 1
  | .list l => 1 + sizeTokList l
  | .dict d => 1 + sizeTokDict d

def sizeTokList : TokenList → Nat
  | .nil => 1
  | .cons t ts => 1 + max (sizeTok t) (sizeTokList ts)

def sizeTokDict : TokenDict → Nat
  | .nil => 1
  | .cons _ v ds => 1 + max (sizeTok v) (sizeTokDict ds)

end

/-! ## Metainfo model (src/torrent/torrent.go)

Info, InfoFile, Torrent and NewTorrent follow src/torrent/torrent.go.
A Go type assertion x.(T) without the comma-ok form panics when it fails
(GoResult.crashed); the comma-ok assertions for the files and length keys
fall through instead.  PieceHashes iterates idx from 0 by 20 while
idx <= len(pieces)-20 (Go int arithmetic); the loop index is embedded as
the remaining suffix pieces[idx:], and the loop is bounded by fuel
len+1, which cannot run out since every iteration drops 20 bytes. -/

structure InfoFile where
  Length : Int
  Path : List (List Char)

structure Info where
  Name : List Char
  PieceLength : Int
  Pieces : List Char
  Length : Int
  Files : List InfoFile

structure Torrent where
  Info : Info
  AnnounceURL : List Char

def PieceHashesLoop : Nat → List Char → List (List Char)
  | 0, _ => []
  | fuel + 1, s =>
    if 20 ≤ s.length then s.take 20 :: PieceHashesLoop fuel (s.drop 20) else []

def Info.PieceHashes (i : Info) : List (List Char) :=
  PieceHashesLoop (i.Pieces.length + 1) i.Pieces

/-- Converting the path list of a files entry: every part is asserted to be
a string (part.(string)); a non-string part panics. -/
def pathParts : TokenList → Option (List (List Char))
  | .nil => some []
  | .cons (.str s) rest => (pathParts rest).map (fun ps => s :: ps)
  | .cons _ _ => none

def newInfoFileSlice : TokenList → GoResult (List InfoFile)
  | .nil => .ok []
  | .cons item rest =>
    match item with
    | .dict d =>
      match d.get (("path").toList) with
      | some (.list rawPath) =>
        match pathParts rawPath with
        | none => .crashed
        | some path =>
          match d.get (("length").toList) with
          | some (.int len) =>
            match newInfoFileSlice rest with
            | .ok files => .ok ({ Length := len, Path := path } :: files)
            | .err m => .err m
            | .crashed => .crashed
            | .nofuel => .nofuel
          | _ => .crashed
      | _ => .err "invalid path list"
    | _ => .err "invalid file item"

def NewTorrent (contents : TokenDict) : GoResult Torrent :=
  match contents.get (("info").toList) with
  | some (.dict info) =>
    let filesRes : GoResult (List InfoFile) :=
      match info.get (("files").toList) with
      | some (.list items) => newInfoFileSlice items
      | _ => .ok []
    match filesRes with
    | .err m => .err ("could not parse files list: " ++ m)
    | .crashed => .crashed
    | .nofuel => .nofuel
    | .ok files =>
      let length : Int :=
        match info.get (("length").toList) with
        | some (.int n) => n
        | _ => 0
      match info.get (("name").toList), info.get (("piece length").toList),
          info.get (("pieces").toList), contents.get (("announce").toList) with
      | some (.str name), some (.int pl), some (.str pieces), some (.str announce) =>
        .ok { Info := { Name := name, PieceLength := pl, Pieces := pieces,
                        Length := length, Files := files },
              AnnounceURL := announce }
      | _, _, _, _ => .crashed
  | _ => .crashed

/-! ## Peer wire messages (src/torrent/tcp.go, first revision)

Connections are byte streams; ReadN follows io.ReadFull and fails unless
the requested count is available (the EOF / unexpected-EOF distinction of
io.ReadFull is collapsed into one message).  binary.BigEndian.Uint32
panics on a slice shorter than four bytes; SendMessage returns the bytes
written to the connection. -/

structure Request where
  Index : Nat
  Begin : Nat
  Length : Nat
deriving DecidableEq, Repr

structure Block where
  Index : Nat
  Begin : Nat
  Block : List Nat
deriving DecidableEq, Repr

structure Message where
  Id : Nat := 0
  KeepAlive : Bool := false
  Generic : Bool := false
  Contents : List Nat := []
  PieceIndex : Nat := 0
  BitField : BitField := { Field := [], Length := 0 }
  Request : Request := { Index := 0, Begin := 0, Length := 0 }
  Block : Block := { Index := 0, Begin := 0, Block := [] }
deriving DecidableEq, Repr

def ReadN (n : Nat) (s : List Nat) : GoResult (List Nat × List Nat) :=
  if n ≤ s.length then .ok (s.take n, s.drop n) else .err "unexpected EOF"

/-- Model of binary.BigEndian.Uint32: big-endian value of the first four
bytes; none models the panic on a shorter slice. -/
def binaryBigEndianUint32 : List Nat → Option Nat
  | b0 :: b1 :: b2 :: b3 :: _ => some (((b0 * 256 + b1) * 256 + b2) * 256 + b3)
  | _ => none

/-- Model of binary.BigEndian.PutUint32 / AppendUint32 for n < 2^32. -/
def putUint32 (n : Nat) : List Nat :=
  [n / 16777216 % 256, n / 65536 % 256, n / 256 % 256, n % 256]

structure TCPClient where
  PeerId : List Nat
  Connections : List (TrackerPeer × List Nat)
  MetaInfo : Torrent

def connGet : List (TrackerPeer × List Nat) → TrackerPeer → Option (List Nat)
  | [], _ => none
  | (p, s) :: rest, peer => if p = peer then some s else connGet rest peer

def connSet : List (TrackerPeer × List Nat) → TrackerPeer → List Nat →
    List (TrackerPeer × List Nat)
  | [], peer, s => [(peer, s)]
  | (p, s0) :: rest, peer, s =>
    if p = peer then (p, s) :: rest else (p, s0) :: connSet rest peer s

/-- Body of TCPClient.ReadMessage after the connection lookup, reading from
the stream conn of the peer connection; MetaInfo is needed for the piece
count of a bitfield message.  Returns the message and the remaining
stream. -/
def readMessageStream (metaInfo : Torrent) (conn : List Nat) :
    GoResult (Message × List Nat) :=
  match ReadN 4 conn with
  | .err m => .err m
  | .crashed => .crashed
  | .nofuel => .nofuel
  | .ok (prefixBytes, s1) =>
    match binaryBigEndianUint32 prefixBytes with
    | none => .crashed
    | some lengthPrefix =>
      if lengthPrefix = 0 then .ok ({ KeepAlive := true }, s1)
      else
        match ReadN lengthPrefix s1 with
        | .err m => .err ("could not read message: " ++ m)
        | .crashed => .crashed
        | .nofuel => .nofuel
        | .ok (messageBytes, s2) =>
          match messageBytes with
          | [] => .crashed
          | msgId :: msgSlice =>
            if msgId = 0 || msgId = 1 || msgId = 2 || msgId = 3 then
              .ok ({ Id := msgId }, s2)
            else if msgId = 4 then
              match binaryBigEndianUint32 msgSlice with
              | none => .crashed
              | some n => .ok ({ Id := msgId, PieceIndex := n }, s2)
            else if msgId = 5 then
              .ok ({ Id := msgId,
                     BitField := { Field := msgSlice,
                                   Length := (metaInfo.Info.PieceHashes).length } }, s2)
            else if msgId = 6 || msgId = 8 then
              match msgSlice with
              | a0 :: a1 :: a2 :: a3 :: b0 :: b1 :: b2 :: b3 :: c0 :: c1 :: c2 :: c3 :: _ =>
                .ok ({ Id := msgId,
                       Request := { Index := ((a0 * 256 + a1) * 256 + a2) * 256 + a3,
                                    Begin := ((b0 * 256 + b1) * 256 + b2) * 256 + b3,
                                    Length := ((c0 * 256 + c1) * 256 + c2) * 256 + c3 } }, s2)
              | _ => .crashed
            else if msgId = 7 then
              match msgSlice with
              | a0 :: a1 :: a2 :: a3 :: b0 :: b1 :: b2 :: b3 :: blockRest =>
                .ok ({ Id := msgId,
                       Block := { Index := ((a0 * 256 + a1) * 256 + a2) * 256 + a3,
                                  Begin := ((b0 * 256 + b1) * 256 + b2) * 256 + b3,
                                  Block := blockRest } }, s2)
              | _ => .crashed
            else
              .ok ({ Id := msgId, Generic := true, Contents := msgSlice }, s2)

def TCPClient.ReadMessage (c : TCPClient) (peer : TrackerPeer) :
    GoResult (Message × List Nat) :=
  match connGet c.Connections peer with
  | none => .err "peer does not have an active connection"
  | some conn => readMessageStream c.MetaInfo conn

/-- Bytes written by SendMessage for a request message: 4-byte length
prefix (13), id byte, then index, begin, length big-endian. -/
def sendRequestBytes (r : Request) : List Nat :=
  putUint32 13 ++ (6 % 256) :: (putUint32 r.Index ++ putUint32 r.Begin ++ putUint32 r.Length)

/-- TCPClient.SendMessage with the connection lookup elided (a missing
connection gives the same error as in ReadMessage): the result is the byte
sequence written to the connection for the message, or the error for an
unhandled message type. -/
def TCPClient.SendMessage (message : Message) : GoResult (List Nat) :=
  if message.KeepAlive then .ok [0, 0, 0, 0]
  else if message.Id = 0 || message.Id = 1 || message.Id = 2 || message.Id = 3 then
    .ok (putUint32 1 ++ [message.Id % 256])
  else if message.Id = 6 then
    .ok (sendRequestBytes message.Request)
  else .err "no handler for message"

/-! ## Inbound handshake validation (src/torrent/tcp.go, lines 117-176)

TCPClient.Handshake, after dialing and writing the outbound handshake,
reads from the connection: one length byte, that many protocol-label
bytes, 8 reserved bytes, 20 info-hash bytes (compared with the expected
hash), then 20 peer-ID bytes (compared with the tracker-announced peer ID
when that is non-empty); on success the connection is stored in the
Connections map.  The expected info hash is passed in as a parameter in
place of the SHA-1 computation c.MetaInfo.Info.Hash(), which is outside
the claims.  The result carries the outcome, the updated client, and the
remaining (unread) connection stream. -/

def HandshakeValidate (c : TCPClient) (peer : TrackerPeer) (infoHash : List Nat)
    (conn : List Nat) : GoResult Unit × TCPClient × List Nat :=
  match ReadN 1 conn with
  | .ok (pStrLen, s1) =>
    match ReadN (pStrLen.headD 0) s1 with
    | .ok (_, s2) =>
      match ReadN 8 s2 with
      | .ok (_, s3) =>
        match ReadN 20 s3 with
        | .ok (sentInfoHash, s4) =>
          if sentInfoHash ≠ infoHash then
            (.err "ending due to info hash mismatch", c, s4)
          else
            match ReadN 20 s4 with
            | .ok (peerId, s5) =>
              if peer.PeerId.length > 0 ∧ peerId ≠ peer.PeerId then
                (.err "ending due to tracker peer id mismatch", c, s5)
              else
                (.ok (), { c with Connections := connSet c.Connections peer s5 }, s5)
            | _ => (.err "could not read peer id", c, s4)
        | _ => (.err "could not read info hash", c, s3)
      | _ => (.err "could not read reserved bytes", c, s2)
    | _ => (.err "could not read peer handshake protocol", c, s1)
  | _ => (.err "could not read peer handshake", c, conn)

/-! ## Concrete fixtures used by witness statements -/

def exampleTorrent : Torrent :=
  { Info := { Name := [], PieceLength := 0, Pieces := [], Length := 0, Files := [] },
    AnnounceURL := [] }

def exampleClient : TCPClient :=
  { PeerId := [], Connections := [], MetaInfo := exampleTorrent }

def examplePeer : TrackerPeer := { Ip := [], Port := 1, PeerId := [] }

def examplePeerWithId : TrackerPeer :=
  { Ip := [], Port := 1, PeerId := List.replicate 20 9 }

/-! ## Theorems -/

/-- Claim C1: for a BitField with pieceCount 10 and zeroed storage,
SetPiece(3) sets byte 0 to 0x10; HasPiece(3) is then true, but because
HasPiece computes its mask as (1 shl 7) - offset (Go precedence), HasPiece(1)
is also true, contradicting the claimed addressing. -/
theorem C1_bitfield_addressing_bug :
    BitField.SetPiece ⟨[0, 0], 10⟩ 3 = some ⟨[16, 0], 10⟩ ∧
    BitField.HasPiece ⟨[16, 0], 10⟩ 3 = some true ∧
    BitField.HasPiece ⟨[16, 0], 10⟩ 1 = some true := by
  decide

/-- Claim C10: when the bitfield invariant Length ≤ 8 * len(Field) holds,
HasPiece and SetPiece never access the Field byte list out of bounds:
both always return a value (no panic), indices at or beyond Length are
rejected before any storage access (HasPiece gives false, SetPiece leaves
the bitfield unchanged), and in-range indices touch only byte index / 8,
which lies inside the list. -/
theorem C10_bitfield_no_out_of_bounds (bf : BitField) (index : Nat)
    (hinv : bf.Length ≤ 8 * bf.Field.length) :
    (bf.HasPiece index).isSome ∧ (bf.SetPiece index).isSome ∧
    (bf.Length ≤ index → bf.HasPiece index = some false ∧ bf.SetPiece index = some bf) := by
  by_cases hge : index ≥ bf.Length
  · simp [BitField.HasPiece, BitField.SetPiece, hge]
  · have hlt : index < bf.Length := lt_of_not_ge hge
    have hidx : index / 8 < bf.Field.length := by
      have h8 : index < bf.Field.length * 8 := by omega
      exact (Nat.div_lt_iff_lt_mul (by norm_num)).mpr h8
    refine ⟨?_, ?_, fun h => absurd h (by omega)⟩
    · simp [BitField.HasPiece, hge, List.getElem?_eq_getElem hidx]
    · simp [BitField.SetPiece, hge, List.getElem?_eq_getElem hidx]

/-- Witness for C10 at a concrete bitfield and index. -/
theorem C10_bitfield_no_out_of_bounds_witness :
    (BitField.Length ⟨[16, 0], 10⟩ ≤ 8 * (BitField.Field ⟨[16, 0], 10⟩).length) ∧
    ((BitField.HasPiece ⟨[16, 0], 10⟩ 9).isSome ∧ (BitField.SetPiece ⟨[16, 0], 10⟩ 9).isSome ∧
      (BitField.Length ⟨[16, 0], 10⟩ ≤ 9 → BitField.HasPiece ⟨[16, 0], 10⟩ 9 = some false ∧
        BitField.SetPiece ⟨[16, 0], 10⟩ 9 = some ⟨[16, 0], 10⟩)) :=
  ⟨by decide, C10_bitfield_no_out_of_bounds ⟨[16, 0], 10⟩ 9 (by decide)⟩

/-- Claim C2: decoding the compact entry 0x7F 0x00 0x00 0x01 0x1A 0xE1
yields the single peer ip 127.0.0.1, port 6881, with no peer ID; but a
13-byte input makes the loop slice bytes 12..16 of a 13-byte string, a
panic (modelled none), instead of dropping the partial final entry. -/
theorem C2_compact_peer_list_bug :
    compactToPeerList [0x7F, 0x00, 0x00, 0x01, 0x1A, 0xE1] =
      some [{ Ip := ("127.0.0.1").toList, Port := 6881, PeerId := [] }] ∧
    compactToPeerList [1, 2, 3, 4, 5, 6, 7, 8, 9, 10, 11, 12, 13] = none := by
  constructor
  · rfl
  · rfl

/-- Claim C5: the outbound handshake serialization in src/torrent/tcp.go
concatenates the length byte, the protocol label, the info hash and the
peer id only — the 8 reserved bytes are never written, although the same
revision reads 8 reserved bytes from the inbound handshake.  The revision
in src/unnamed/part_001 emits the claimed layout, reserved bytes included. -/
theorem C5_handshake_serialization_bug :
    (∀ h : Handshake,
      TcpGo.Serialized h = (h.Protocol.length % 256) :: h.Protocol ++ h.InfoHash ++ h.PeerId) ∧
    (∀ h : Handshake,
      MsgGo.Serialized h =
        (h.Protocol.length % 256) :: h.Protocol ++ h.Reserved ++ h.InfoHash ++ h.PeerId) ∧
    TcpGo.Serialized ⟨List.replicate 19 66, List.replicate 8 0,
        List.replicate 20 1, List.replicate 20 2⟩ ≠
      MsgGo.Serialized ⟨List.replicate 19 66, List.replicate 8 0,
        List.replicate 20 1, List.replicate 20 2⟩ := by
  refine ⟨fun h => rfl, fun h => rfl, ?_⟩
  decide

/-- Claim C3: decoding "i03e" and "i-0e" does not fail: ParseBencodeInteger
delegates to strconv.Atoi, which accepts leading zeros and a negative
zero, so both inputs decode to integers (3 and 0) with no error, although
the function's own documentation declares them invalid. -/
theorem C3_integer_leading_zero_bug :
    DecodeBencode (("i03e").toList) = .ok (.cons (.int 3) .nil) ∧
    DecodeBencode (("i-0e").toList) = .ok (.cons (.int 0) .nil) := by
  exact ⟨rfl, rfl⟩

/-- Counterexample to claim C6: on a 25-byte pieces string the operation
succeeds, returning the single leading 20-byte chunk — the trailing 5
bytes are silently ignored, no data error is signalled. -/
theorem C6_pieceHashes_counterexample :
    Info.PieceHashes { Name := [], PieceLength := 0, Pieces := List.replicate 25 'a',
                       Length := 0, Files := [] } = [List.replicate 20 'a'] := by
  decide

theorem pieceHashesLoop_eq (fuel : Nat) : ∀ s : List Char, s.length ≤ fuel →
    PieceHashesLoop fuel s =
      (List.range (s.length / 20)).map (fun k => (s.drop (20 * k)).take 20) := by
  induction fuel with
  | zero =>
    intro s h
    have h0 : s.length = 0 := by omega
    have hd : s.length / 20 = 0 := by omega
    simp [PieceHashesLoop, hd]
  | succ fuel ih =>
    intro s h
    by_cases h20 : 20 ≤ s.length
    · have hlen : (s.drop 20).length = s.length - 20 := by simp
      have hrec := ih (s.drop 20) (by omega)
      have hdiv : s.length / 20 = (s.length - 20) / 20 + 1 := by omega
      rw [PieceHashesLoop, if_pos h20, hrec, hlen, hdiv, List.range_succ_eq_map]
      simp only [List.map_cons, List.map_map, Nat.mul_zero, List.drop_zero]
      refine congrArg₂ _ rfl (List.map_congr_left fun k _ => ?_)
      simp only [Function.comp_apply, List.drop_drop]
      have harg : 20 + 20 * k = 20 * Nat.succ k := by omega
      rw [harg]
    · have hd : s.length / 20 = 0 := Nat.div_eq_of_lt (by omega)
      rw [PieceHashesLoop, if_neg h20]
      simp [hd]

/-- Claim C6 as amended: PieceHashes splits the pieces string into
consecutive 20-byte chunks in piece-index order, one per piece; a trailing
partial chunk is silently dropped (the function is total and cannot signal
a data error). -/
theorem C6_pieceHashes_chunks (i : Info) :
    i.PieceHashes =
      (List.range (i.Pieces.length / 20)).map
        (fun k => (i.Pieces.drop (20 * k)).take 20) :=
  pieceHashesLoop_eq (i.Pieces.length + 1) i.Pieces (by omega)


/-- Counterexample to claim C4: on the empty metainfo dictionary (both
announce and info absent) NewTorrent aborts with a runtime panic (the
type assertion contents["info"].(map[string]any) fails); it does not
return an error result. -/
theorem C4_newTorrent_counterexample :
    NewTorrent .nil = .crashed := by
  rfl

theorem newInfoFileSlice_ne_nofuel : ∀ ts : TokenList, newInfoFileSlice ts ≠ .nofuel
  | .nil => by
    rw [newInfoFileSlice]
    simp
  | .cons item rest => by
    intro h
    cases item with
    | int i => simp [newInfoFileSlice] at h
    | str s2 => simp [newInfoFileSlice] at h
    | list l => simp [newInfoFileSlice] at h
    | dict d =>
      rw [newInfoFileSlice] at h
      have hrec := newInfoFileSlice_ne_nofuel rest
      (repeat' split at h) <;>
        first
          | exact GoResult.noConfusion h
          | (rename_i hrec2; exact absurd hrec2 hrec)

/-- Claim C4 as amended: when the key announce is absent or not a string,
or the key info is absent or not a dictionary, NewTorrent either aborts
with a runtime type-assertion panic or returns a files parse error (the
latter only when a malformed files list inside info intervenes) — it
never succeeds and never returns a MissingField error result; and when
info is absent or not a dictionary, the outcome is always the panic,
raised immediately by the first type assertion. -/
theorem C4_newTorrent_panics (contents : TokenDict)
    (hbad : (∀ d, contents.get (("info").toList) ≠ some (.dict d)) ∨
            (∀ s, contents.get (("announce").toList) ≠ some (.str s))) :
    (NewTorrent contents = .crashed ∨
      ∃ m, NewTorrent contents = .err ("could not parse files list: " ++ m)) ∧
    ((∀ d, contents.get (("info").toList) ≠ some (.dict d)) →
      NewTorrent contents = .crashed) := by
  have hB : (∀ d, contents.get (("info").toList) ≠ some (.dict d)) →
      NewTorrent contents = .crashed := by
    intro hinfoBad
    unfold NewTorrent
    cases hinfo : contents.get (("info").toList) with
    | none => rfl
    | some tok =>
      cases tok with
      | int i => rfl
      | str s => rfl
      | list l => rfl
      | dict d => exact absurd hinfo (hinfoBad d)
  refine ⟨?_, hB⟩
  cases hbad with
  | inl h => exact Or.inl (hB h)
  | inr hann =>
    unfold NewTorrent
    (repeat' split) <;>
      first
        | exact Or.inl rfl
        | exact absurd (by assumption) (hann _)
        | (rename_i m heq; exact Or.inr ⟨m, rfl⟩)
        | (dsimp only []
           split <;>
             first
               | exact Or.inl rfl
               | (rename_i m heq; exact Or.inr ⟨m, rfl⟩)
               | (rename_i heq2; exact absurd heq2 (newInfoFileSlice_ne_nofuel _)))

/-- Witness for C4 at the empty dictionary. -/
theorem C4_newTorrent_panics_witness :
    ((∀ d, TokenDict.get .nil (("info").toList) ≠ some (.dict d)) ∨
     (∀ s, TokenDict.get .nil (("announce").toList) ≠ some (.str s))) ∧
    ((NewTorrent .nil = .crashed ∨
       ∃ m, NewTorrent .nil = .err ("could not parse files list: " ++ m)) ∧
     ((∀ d, TokenDict.get .nil (("info").toList) ≠ some (.dict d)) →
       NewTorrent .nil = .crashed)) :=
  ⟨Or.inl (fun d h => by simp [TokenDict.get] at h),
   C4_newTorrent_panics .nil (Or.inl (fun d h => by simp [TokenDict.get] at h))⟩

theorem readN_append (n : Nat) (a b : List Nat) (h : a.length = n) :
    ReadN n (a ++ b) = .ok (a, b) := by
  subst h
  simp [ReadN, List.take_left, List.drop_left]

/-- Claim C8: a zero length prefix yields KeepAlive with the rest of the
stream untouched; the frame 04 00 00 00 07 (with its 5-byte length prefix)
yields Have with piece index 7; a request written by SendMessage reads
back as the same request; and a stream shorter than the declared length
is the truncated-message error. -/
theorem C8_readMessage_framing :
    (∀ (t : Torrent) (rest : List Nat),
      readMessageStream t ([0, 0, 0, 0] ++ rest) = .ok ({ KeepAlive := true }, rest)) ∧
    (∀ (t : Torrent) (rest : List Nat),
      readMessageStream t ([0, 0, 0, 5, 4, 0, 0, 0, 7] ++ rest) =
        .ok ({ Id := 4, PieceIndex := 7 }, rest)) ∧
    (∀ (t : Torrent) (req : Request) (rest : List Nat),
      req.Index < 4294967296 → req.Begin < 4294967296 → req.Length < 4294967296 →
      TCPClient.SendMessage { Id := 6, Request := req } = .ok (sendRequestBytes req) ∧
      readMessageStream t (sendRequestBytes req ++ rest) =
        .ok ({ Id := 6, Request := req }, rest)) ∧
    (∀ t : Torrent,
      readMessageStream t [0, 0, 0, 5, 4, 0] =
        .err "could not read message: unexpected EOF") := by
  refine ⟨?_, ?_, ?_, ?_⟩
  · intro t rest
    unfold readMessageStream
    rw [readN_append 4 [0, 0, 0, 0] rest rfl]
    rfl
  · intro t rest
    unfold readMessageStream
    have hsplit : ([0, 0, 0, 5, 4, 0, 0, 0, 7] : List Nat) ++ rest =
        [0, 0, 0, 5] ++ ([4, 0, 0, 0, 7] ++ rest) := rfl
    rw [hsplit, readN_append 4 [0, 0, 0, 5] _ rfl]
    norm_num [binaryBigEndianUint32]
    rw [show (4 :: 0 :: 0 :: 0 :: 7 :: rest : List Nat) = [4, 0, 0, 0, 7] ++ rest from rfl,
      readN_append 5 [4, 0, 0, 0, 7] rest rfl]
    rfl
  · intro t req rest hI hB hL
    obtain ⟨I, B, L⟩ := req
    simp only [Request.mk.injEq] at hI hB hL ⊢
    constructor
    · simp [TCPClient.SendMessage]
    · unfold readMessageStream
      have hsplit : sendRequestBytes ⟨I, B, L⟩ ++ rest =
          [0, 0, 0, 13] ++ ((6 :: (putUint32 I ++ putUint32 B ++ putUint32 L)) ++ rest) := by
        simp [sendRequestBytes, putUint32]
      have hlen : (6 :: (putUint32 I ++ putUint32 B ++ putUint32 L)).length = 13 := by
        simp [putUint32]
      rw [hsplit, readN_append 4 [0, 0, 0, 13] _ rfl]
      norm_num [binaryBigEndianUint32]
      rw [show (6 :: (putUint32 I ++ (putUint32 B ++ (putUint32 L ++ rest))) : List Nat) =
            (6 :: (putUint32 I ++ putUint32 B ++ putUint32 L)) ++ rest by simp,
        readN_append 13 _ rest hlen]
      simp only [putUint32, List.cons_append, List.append_assoc, List.nil_append]
      norm_num
      refine ⟨?_, ?_, ?_⟩ <;> omega
  · intro t
    rfl

/-- Witness for C8: the request round trip at a concrete request and
stream. -/
theorem C8_readMessage_framing_witness :
    (7 : Nat) < 4294967296 ∧ (14 : Nat) < 4294967296 ∧ (21 : Nat) < 4294967296 ∧
    readMessageStream
      { Info := { Name := [], PieceLength := 0, Pieces := [], Length := 0, Files := [] },
        AnnounceURL := [] }
      (sendRequestBytes { Index := 7, Begin := 14, Length := 21 } ++ [9]) =
      .ok ({ Id := 6, Request := { Index := 7, Begin := 14, Length := 21 } }, [9]) :=
  ⟨by norm_num, by norm_num, by norm_num,
   (C8_readMessage_framing.2.2.1
      { Info := { Name := [], PieceLength := 0, Pieces := [], Length := 0, Files := [] },
        AnnounceURL := [] }
      { Index := 7, Begin := 14, Length := 21 } [9]
      (by norm_num) (by norm_num) (by norm_num)).2⟩

/-- Claim C9: with the inbound stream carrying a length byte, the protocol
label, 8 reserved bytes and then a 20-byte hash differing from the
expected info hash, the handshake fails with the info-hash-mismatch error,
the client's connection map is unchanged, and the remaining stream is
everything after the hash — the peer-ID bytes and any subsequent wire
message are never read; ReadMessage on a peer without a registered
connection only returns the no-active-connection error.  When the hash
matches, the peer ID is checked only against a non-empty tracker-announced
peer ID (mismatch fails), and an empty announced peer ID accepts any
received peer ID, registering the connection. -/
theorem C9_handshake_validation :
    (∀ (c : TCPClient) (peer : TrackerPeer) (infoHash proto reserved sentHash rest : List Nat),
      reserved.length = 8 → sentHash.length = 20 → sentHash ≠ infoHash →
      HandshakeValidate c peer infoHash
          (proto.length :: (proto ++ (reserved ++ (sentHash ++ rest)))) =
        (.err "ending due to info hash mismatch", c, rest)) ∧
    (∀ (c : TCPClient) (peer : TrackerPeer),
      connGet c.Connections peer = none →
      TCPClient.ReadMessage c peer = .err "peer does not have an active connection") ∧
    (∀ (c : TCPClient) (peer : TrackerPeer) (infoHash proto reserved pid rest : List Nat),
      reserved.length = 8 → infoHash.length = 20 → pid.length = 20 →
      peer.PeerId = [] →
      HandshakeValidate c peer infoHash
          (proto.length :: (proto ++ (reserved ++ (infoHash ++ (pid ++ rest))))) =
        (.ok (), { c with Connections := connSet c.Connections peer rest }, rest)) ∧
    (∀ (c : TCPClient) (peer : TrackerPeer) (infoHash proto reserved pid rest : List Nat),
      reserved.length = 8 → infoHash.length = 20 → pid.length = 20 →
      peer.PeerId ≠ [] → pid ≠ peer.PeerId →
      HandshakeValidate c peer infoHash
          (proto.length :: (proto ++ (reserved ++ (infoHash ++ (pid ++ rest))))) =
        (.err "ending due to tracker peer id mismatch", c, rest)) := by
  refine ⟨?_, ?_, ?_, ?_⟩
  · intro c peer infoHash proto reserved sentHash rest hres hsent hne
    unfold HandshakeValidate
    rw [show (proto.length :: (proto ++ (reserved ++ (sentHash ++ rest))) : List Nat) =
          [proto.length] ++ (proto ++ (reserved ++ (sentHash ++ rest))) from rfl,
      readN_append 1 [proto.length] _ rfl]
    simp only [List.headD_cons, readN_append proto.length proto _ rfl,
      readN_append 8 reserved _ hres, readN_append 20 sentHash _ hsent]
    simp [hne]
  · intro c peer hnone
    unfold TCPClient.ReadMessage
    rw [hnone]
  · intro c peer infoHash proto reserved pid rest hres hhash hpid hempty
    unfold HandshakeValidate
    rw [show (proto.length :: (proto ++ (reserved ++ (infoHash ++ (pid ++ rest)))) : List Nat) =
          [proto.length] ++ (proto ++ (reserved ++ (infoHash ++ (pid ++ rest)))) from rfl,
      readN_append 1 [proto.length] _ rfl]
    simp only [List.headD_cons, readN_append proto.length proto _ rfl,
      readN_append 8 reserved _ hres, readN_append 20 infoHash _ hhash,
      readN_append 20 pid _ hpid]
    simp [hempty]
  · intro c peer infoHash proto reserved pid rest hres hhash hpid hnonempty hne
    unfold HandshakeValidate
    rw [show (proto.length :: (proto ++ (reserved ++ (infoHash ++ (pid ++ rest)))) : List Nat) =
          [proto.length] ++ (proto ++ (reserved ++ (infoHash ++ (pid ++ rest)))) from rfl,
      readN_append 1 [proto.length] _ rfl]
    simp only [List.headD_cons, readN_append proto.length proto _ rfl,
      readN_append 8 reserved _ hres, readN_append 20 infoHash _ hhash,
      readN_append 20 pid _ hpid]
    have hlen : peer.PeerId.length > 0 := List.length_pos.mpr hnonempty
    simp [hlen, hne]

/-- Witness for C9 at a concrete client, peers and streams. -/
theorem C9_handshake_validation_witness :
    (List.replicate 8 0 : List Nat).length = 8 ∧
    (List.replicate 20 2 : List Nat).length = 20 ∧
    List.replicate 20 2 ≠ List.replicate 20 1 ∧
    HandshakeValidate exampleClient examplePeer (List.replicate 20 1)
        (([] : List Nat).length ::
          (([] : List Nat) ++ (List.replicate 8 0 ++ (List.replicate 20 2 ++ [5])))) =
      (.err "ending due to info hash mismatch", exampleClient, [5]) ∧
    connGet exampleClient.Connections examplePeer = none ∧
    TCPClient.ReadMessage exampleClient examplePeer =
      .err "peer does not have an active connection" ∧
    examplePeer.PeerId = [] ∧
    HandshakeValidate exampleClient examplePeer (List.replicate 20 1)
        (([] : List Nat).length ::
          (([] : List Nat) ++
            (List.replicate 8 0 ++ (List.replicate 20 1 ++ (List.replicate 20 3 ++ [5]))))) =
      (.ok (),
       { exampleClient with
           Connections := connSet exampleClient.Connections examplePeer [5] }, [5]) ∧
    examplePeerWithId.PeerId ≠ [] ∧
    List.replicate 20 3 ≠ examplePeerWithId.PeerId ∧
    HandshakeValidate exampleClient examplePeerWithId (List.replicate 20 1)
        (([] : List Nat).length ::
          (([] : List Nat) ++
            (List.replicate 8 0 ++ (List.replicate 20 1 ++ (List.replicate 20 3 ++ [5]))))) =
      (.err "ending due to tracker peer id mismatch", exampleClient, [5]) :=
  ⟨by decide, by decide, by decide,
   C9_handshake_validation.1 exampleClient examplePeer (List.replicate 20 1) []
     (List.replicate 8 0) (List.replicate 20 2) [5] (by decide) (by decide) (by decide),
   rfl,
   C9_handshake_validation.2.1 exampleClient examplePeer rfl,
   rfl,
   C9_handshake_validation.2.2.1 exampleClient examplePeer (List.replicate 20 1) []
     (List.replicate 8 0) (List.replicate 20 3) [5] (by decide) (by decide) (by decide) rfl,
   by decide, by decide,
   C9_handshake_validation.2.2.2 exampleClient examplePeerWithId (List.replicate 20 1) []
     (List.replicate 8 0) (List.replicate 20 3) [5] (by decide) (by decide) (by decide)
     (by decide) (by decide)⟩

/-! ### Decimal rendering and Atoi round trip -/

theorem digitVal_digitChar (d : Nat) (h : d < 10) : digitVal (digitChar d) = d := by
  interval_cases d <;> rfl

theorem isDigitChar_digitChar (d : Nat) (h : d < 10) : isDigitChar (digitChar d) = true := by
  interval_cases d <;> rfl

theorem natDecimalAux_eq_digits (fuel : Nat) : ∀ n, n < fuel →
    natDecimalAux fuel n = ((Nat.digits 10 n).reverse).map digitChar := by
  induction fuel with
  | zero => intro n h; omega
  | succ fuel ih =>
    intro n h
    by_cases h0 : n = 0
    · subst h0; simp [natDecimalAux]
    · have hrec := ih (n / 10) (by omega)
      rw [natDecimalAux, if_neg h0, hrec,
        Nat.digits_def' (by norm_num : 1 < 10) (Nat.pos_of_ne_zero h0)]
      simp

theorem natDecimal_eq_digits (n : Nat) (h : n ≠ 0) :
    natDecimal n = ((Nat.digits 10 n).reverse).map digitChar := by
  rw [natDecimal, if_neg h, natDecimalAux_eq_digits (n + 1) n (by omega)]

theorem natDecimal_all_digits (n : Nat) : ∀ c ∈ natDecimal n, isDigitChar c = true := by
  intro c hc
  by_cases h0 : n = 0
  · subst h0
    simp [natDecimal] at hc
    subst hc; rfl
  · rw [natDecimal_eq_digits n h0] at hc
    simp only [List.mem_map, List.mem_reverse] at hc
    obtain ⟨d, hd, rfl⟩ := hc
    exact isDigitChar_digitChar d (Nat.digits_lt_base (by norm_num) hd)

theorem natDecimal_ne_nil (n : Nat) : natDecimal n ≠ [] := by
  by_cases h0 : n = 0
  · subst h0; simp [natDecimal]
  · rw [natDecimal_eq_digits n h0]
    simp [Nat.digits_ne_nil_iff_ne_zero, h0]

theorem natDecimal_head_digit (n : Nat) :
    ∃ c cs, natDecimal n = c :: cs ∧ isDigitChar c = true := by
  cases hd : natDecimal n with
  | nil => exact absurd hd (natDecimal_ne_nil n)
  | cons c cs =>
    exact ⟨c, cs, rfl, natDecimal_all_digits n c (by rw [hd]; exact List.mem_cons_self c cs)⟩

theorem foldr_digits_eq_ofDigits : ∀ ds : List Nat, (∀ d ∈ ds, d < 10) →
    List.foldr (fun d a => a * 10 + digitVal (digitChar d)) 0 ds = Nat.ofDigits 10 ds := by
  intro ds
  induction ds with
  | nil => intro _; simp [Nat.ofDigits_nil]
  | cons d ds ih =>
    intro h
    have hd : d < 10 := h d (List.mem_cons_self d ds)
    have hds := ih (fun x hx => h x (List.mem_cons_of_mem d hx))
    simp only [List.foldr_cons, hds, digitVal_digitChar d hd, Nat.ofDigits_cons]
    ring

theorem parseDigits_natDecimal (n : Nat) : parseDigits (natDecimal n) = some n := by
  rw [parseDigits, if_neg (natDecimal_ne_nil n)]
  rw [if_pos (List.all_eq_true.mpr (fun c hc => natDecimal_all_digits n c hc))]
  congr 1
  by_cases h0 : n = 0
  · subst h0; rfl
  · rw [natDecimal_eq_digits n h0, List.foldl_map, List.foldl_reverse]
    have := foldr_digits_eq_ofDigits (Nat.digits 10 n)
      (fun d hd => Nat.digits_lt_base (by norm_num) hd)
    simpa [this] using Nat.ofDigits_digits 10 n

theorem isDigitChar_ne_plus (c : Char) (h : isDigitChar c = true) : c ≠ '+' := by
  intro heq; rw [heq] at h; exact absurd h (by decide)

theorem isDigitChar_ne_minus (c : Char) (h : isDigitChar c = true) : c ≠ '-' := by
  intro heq; rw [heq] at h; exact absurd h (by decide)

theorem isDigitChar_ne_colon (c : Char) (h : isDigitChar c = true) : c ≠ ':' := by
  intro heq; rw [heq] at h; exact absurd h (by decide)

theorem isDigitChar_ne_e (c : Char) (h : isDigitChar c = true) : c ≠ 'e' := by
  intro heq; rw [heq] at h; exact absurd h (by decide)

theorem isDigitChar_not_space (c : Char) (h : isDigitChar c = true) :
    isSpaceByte c = false := by
  by_contra hsp
  have hsp' : isSpaceByte c = true := by
    cases hv : isSpaceByte c
    · exact absurd hv hsp
    · rfl
  simp only [isSpaceByte, Bool.or_eq_true, decide_eq_true_eq] at hsp'
  rcases hsp' with ((((((hc | hc) | hc) | hc) | hc) | hc) | hc) | hc <;>
    (rw [hc] at h; exact absurd h (by decide))

theorem strconvAtoi_natDecimal (n : Nat) : strconvAtoi (natDecimal n) = some (n : Int) := by
  obtain ⟨c, cs, hcons, hdig⟩ := natDecimal_head_digit n
  rw [hcons, strconvAtoi, if_neg (isDigitChar_ne_plus c hdig),
    if_neg (isDigitChar_ne_minus c hdig), ← hcons, parseDigits_natDecimal]
  rfl

theorem strconvAtoi_intDecimal (i : Int) : strconvAtoi (intDecimal i) = some i := by
  by_cases hneg : i < 0
  · rw [intDecimal, if_pos hneg, strconvAtoi, if_neg (by decide), if_pos rfl,
      parseDigits_natDecimal]
    show some (-(i.natAbs : Int)) = some i
    congr 1
    omega
  · rw [intDecimal, if_neg hneg]
    rw [strconvAtoi_natDecimal]
    congr 1
    omega

/-! ### Scanner and single-token parsing lemmas -/

theorem consumeUntil_append (delim : Char) : ∀ (a rest : List Char),
    (∀ c ∈ a, c ≠ delim) →
    ConsumeUntil delim (a ++ delim :: rest) = (a, true, delim :: rest) := by
  intro a
  induction a with
  | nil => intro rest _; simp [ConsumeUntil]
  | cons c as ih =>
    intro rest h
    have hc : c ≠ delim := h c (List.mem_cons_self c as)
    simp only [List.cons_append, ConsumeUntil, if_neg hc, List.append_eq,
      ih rest (fun x hx => h x (List.mem_cons_of_mem c hx))]

theorem advanceWhitespace_cons (c : Char) (cs : List Char) (h : isSpaceByte c = false) :
    AdvanceWhitespace (c :: cs) = c :: cs := by
  simp [AdvanceWhitespace, h]

theorem parseString_encode (s rest : List Char) :
    ParseBencodeString (encodeStr s ++ rest) = .ok (.str s, rest) := by
  have hshape : encodeStr s ++ rest = natDecimal s.length ++ ':' :: (s ++ rest) := by
    simp [encodeStr]
  rw [hshape, ParseBencodeString,
    consumeUntil_append ':' (natDecimal s.length) (s ++ rest)
      (fun c hc => isDigitChar_ne_colon c (natDecimal_all_digits _ c hc))]
  simp only [strconvAtoi_natDecimal]
  norm_num

theorem intDecimal_ne_e (i : Int) : ∀ c ∈ intDecimal i, c ≠ 'e' := by
  intro c hc
  by_cases hneg : i < 0
  · rw [intDecimal, if_pos hneg] at hc
    rcases List.mem_cons.mp hc with rfl | hmem
    · decide
    · exact isDigitChar_ne_e c (natDecimal_all_digits _ c hmem)
  · rw [intDecimal, if_neg hneg] at hc
    exact isDigitChar_ne_e c (natDecimal_all_digits _ c hc)

theorem parseInteger_encode (i : Int) (rest : List Char) :
    ParseBencodeInteger ('i' :: (intDecimal i ++ 'e' :: rest)) = .ok (.int i, rest) := by
  rw [ParseBencodeInteger]
  simp only [List.drop_succ_cons, List.drop_zero]
  rw [consumeUntil_append 'e' (intDecimal i) rest (intDecimal_ne_e i)]
  simp only [strconvAtoi_intDecimal]
  norm_num

/-! ### Shape of encoder output -/

theorem encode_cons (t : Token) :
    ∃ c cs, EncodeBencode t = c :: cs ∧ isSpaceByte c = false ∧ c ≠ 'e' := by
  cases t with
  | int i => exact ⟨'i', _, rfl, by decide, by decide⟩
  | str s =>
    obtain ⟨c, cs, hc, hdig⟩ := natDecimal_head_digit s.length
    refine ⟨c, cs ++ ':' :: s, ?_, isDigitChar_not_space c hdig, isDigitChar_ne_e c hdig⟩
    show encodeStr s = c :: (cs ++ ':' :: s)
    rw [encodeStr, hc]
    simp
  | list l => exact ⟨'l', _, rfl, by decide, by decide⟩
  | dict d => exact ⟨'d', _, rfl, by decide, by decide⟩

theorem encode_ne_nil (t : Token) : EncodeBencode t ≠ [] := by
  obtain ⟨c, cs, hc, _, _⟩ := encode_cons t
  rw [hc]
  exact List.cons_ne_nil c cs

/-! ### TokenList and TokenDict bookkeeping -/

theorem tokenList_append_nil : ∀ ts : TokenList, ts.append .nil = ts
  | .nil => rfl
  | .cons t ts => by rw [TokenList.append, tokenList_append_nil ts]

theorem tokenList_append_assoc : ∀ a b c : TokenList,
    (a.append b).append c = a.append (b.append c)
  | .nil, _, _ => rfl
  | .cons t ts, b, c => by
    rw [TokenList.append, TokenList.append, tokenList_append_assoc ts b c, TokenList.append]

theorem tokenDict_concat_assoc : ∀ a b c : TokenDict,
    (a.concat b).concat c = a.concat (b.concat c)
  | .nil, _, _ => rfl
  | .cons k v ds, b, c => by
    rw [TokenDict.concat, TokenDict.concat, tokenDict_concat_assoc ds b c, TokenDict.concat]

theorem tokenDict_set_fresh : ∀ (d : TokenDict) (k : List Char) (v : Token),
    d.hasKey k = false → d.set k v = d.concat (.cons k v .nil)
  | .nil, _, _, _ => rfl
  | .cons k0 v0 ds, k, v, h => by
    rw [TokenDict.hasKey, Bool.or_eq_false_iff] at h
    have hne : k0 ≠ k := by
      intro heq
      rw [heq] at h
      simp at h
    rw [TokenDict.set, if_neg hne, TokenDict.concat, tokenDict_set_fresh ds k v h.2]

theorem tokenDict_hasKey_concat : ∀ (a b : TokenDict) (k : List Char),
    (a.concat b).hasKey k = (a.hasKey k || b.hasKey k)
  | .nil, _, _ => rfl
  | .cons k0 v0 ds, b, k => by
    rw [TokenDict.concat, TokenDict.hasKey, tokenDict_hasKey_concat ds b k,
      TokenDict.hasKey, Bool.or_assoc]

/-! ### Byte-wise string order -/

theorem strLtB_irrefl (a : List Char) : strLtB a a = false := by
  induction a with
  | nil => rfl
  | cons c cs ih => rw [strLtB, if_pos rfl, ih]

theorem strLtB_asymm : ∀ a b : List Char, strLtB a b = true → strLtB b a = false := by
  intro a
  induction a with
  | nil =>
    intro b h
    cases b with
    | nil => exact absurd h (by rw [strLtB]; simp)
    | cons c cs => rfl
  | cons c cs ih =>
    intro b h
    cases b with
    | nil => exact absurd h (by rw [strLtB]; simp)
    | cons d ds =>
      rw [strLtB] at h
      by_cases hcd : c = d
      · subst hcd
        rw [if_pos rfl] at h
        rw [strLtB, if_pos rfl]
        exact ih ds h
      · rw [if_neg hcd] at h
        have hlt : c < d := by simpa using h
        have hnd : d ≠ c := fun heq => hcd (heq.symm)
        rw [strLtB, if_neg hnd]
        simp [not_lt.mpr (le_of_lt hlt)]

theorem strLtB_ne (a b : List Char) (h : strLtB a b = true) : a ≠ b := by
  intro heq
  subst heq
  rw [strLtB_irrefl a] at h
  cases h

theorem dictKeysAbove_hasKey (k : List Char) :
    ∀ (ds : TokenDict) (k2 : List Char), dictKeysAbove k ds = true →
      ds.hasKey k2 = true → strLtB k k2 = true
  | .nil, _, _, hmem => by cases hmem
  | .cons k0 v0 ds, k2, habove, hmem => by
    rw [dictKeysAbove, Bool.and_eq_true] at habove
    rw [TokenDict.hasKey, Bool.or_eq_true] at hmem
    rcases hmem with hk | hk
    · have : k0 = k2 := by simpa using hk
      rw [← this]
      exact habove.1
    · exact dictKeysAbove_hasKey k ds k2 habove.2 hk

/-! ### Sorted dictionaries: the encoder's key sort is the identity -/

theorem insertPair_lt (p : List Char × List Char) :
    ∀ l : List (List Char × List Char),
      (∀ q ∈ l, strLtB p.1 q.1 = true) → insertPair p l = p :: l
  | [], _ => rfl
  | q :: qs, h => by
    have has := strLtB_asymm p.1 q.1 (h q (List.mem_cons_self q qs))
    rw [insertPair, if_neg (by simp [has])]

theorem entries_key_mem : ∀ (ds : TokenDict) (q : List Char × List Char),
    q ∈ EncodeBencodeEntries ds → ds.hasKey q.1 = true
  | .nil, q, h => by
    rw [EncodeBencodeEntries] at h
    cases h
  | .cons k v ds, q, h => by
    rw [EncodeBencodeEntries] at h
    rcases List.mem_cons.mp h with rfl | hmem
    · rw [TokenDict.hasKey]
      simp
    · rw [TokenDict.hasKey, entries_key_mem ds q hmem]
      simp

theorem sortPairs_entries : ∀ ds : TokenDict, wfTokDict ds = true →
    sortPairs (EncodeBencodeEntries ds) = EncodeBencodeEntries ds
  | .nil, _ => by rw [EncodeBencodeEntries]; rfl
  | .cons k v ds, h => by
    rw [wfTokDict, Bool.and_eq_true, Bool.and_eq_true] at h
    obtain ⟨⟨habove, _⟩, hds⟩ := h
    rw [EncodeBencodeEntries, sortPairs, sortPairs_entries ds hds,
      insertPair_lt (k, encodeStr k ++ EncodeBencode v) (EncodeBencodeEntries ds)
        (fun q hq => dictKeysAbove_hasKey k ds q.1 habove (entries_key_mem ds q hq))]

/-! ### Fuel bounds -/

theorem sizeTok_pos (t : Token) : 1 ≤ sizeTok t := by
  cases t <;> simp [sizeTok]

theorem sizeTokList_pos (ts : TokenList) : 1 ≤ sizeTokList ts := by
  cases ts <;> simp [sizeTokList]

theorem sizeTokDict_pos (ds : TokenDict) : 1 ≤ sizeTokDict ds := by
  cases ds <;> simp [sizeTokDict]

mutual

theorem size_le_tok : ∀ t : Token, wfTok t = true → sizeTok t ≤ (EncodeBencode t).length
  | .int i, _ => by
    rw [sizeTok, EncodeBencode]
    simp
  | .str s, _ => by
    rw [sizeTok, EncodeBencode, encodeStr]
    simp
    omega
  | .list l, h => by
    rw [wfTok] at h
    have := size_le_list l h
    rw [sizeTok, EncodeBencode]
    simp only [List.length_cons, List.length_append, List.length_singleton]
    omega
  | .dict d, h => by
    rw [wfTok] at h
    have := size_le_dict d h
    rw [sizeTok, EncodeBencode, sortPairs_entries d h]
    simp only [List.length_cons, List.length_append, List.length_singleton]
    omega

theorem size_le_list : ∀ ts : TokenList, wfTokList ts = true →
    sizeTokList ts ≤ (EncodeBencodeItems ts).length + 1
  | .nil, _ => by
    rw [sizeTokList, EncodeBencodeItems]
    simp
  | .cons t ts, h => by
    rw [wfTokList, Bool.and_eq_true] at h
    have h1 := size_le_tok t h.1
    have h2 := size_le_list ts h.2
    have h3 : 1 ≤ (EncodeBencode t).length :=
      List.length_pos.mpr (encode_ne_nil t)
    rw [sizeTokList, EncodeBencodeItems]
    simp only [List.length_append]
    omega

theorem size_le_dict : ∀ ds : TokenDict, wfTokDict ds = true →
    sizeTokDict ds ≤ (flattenPairs (EncodeBencodeEntries ds)).length + 1
  | .nil, _ => by
    rw [sizeTokDict, EncodeBencodeEntries]
    simp [flattenPairs]
  | .cons k v ds, h => by
    rw [wfTokDict, Bool.and_eq_true, Bool.and_eq_true] at h
    obtain ⟨⟨_, hv⟩, hds⟩ := h
    have h1 := size_le_tok v hv
    have h2 := size_le_dict ds hds
    have h3 : 1 ≤ (EncodeBencode v).length := List.length_pos.mpr (encode_ne_nil v)
    have h4 : 1 ≤ (encodeStr k).length := by
      rw [encodeStr]
      simp only [List.length_append, List.length_cons]
      omega
    rw [sizeTokDict, EncodeBencodeEntries]
    simp only [flattenPairs, List.map_cons, List.flatten_cons, List.length_append]
    rw [show (List.map Prod.snd (EncodeBencodeEntries ds)).flatten =
          flattenPairs (EncodeBencodeEntries ds) from rfl]
    omega

end

theorem tokenDict_concat_nil : ∀ d : TokenDict, d.concat .nil = d
  | .nil => rfl
  | .cons k v ds => by rw [TokenDict.concat, tokenDict_concat_nil ds]

/-! ### The round trip: parsing back an encoded token -/

mutual

theorem rt_tok : ∀ (t : Token) (fuel : Nat) (rest : List Char),
    wfTok t = true → sizeTok t ≤ fuel →
    ParseBencodeToken fuel (EncodeBencode t ++ rest) = .ok (t, rest)
  | .int i, fuel, rest, _, hf => by
    rw [sizeTok] at hf
    obtain ⟨f, rfl⟩ : ∃ f, fuel = f + 1 := ⟨fuel - 1, by omega⟩
    rw [show EncodeBencode (.int i) ++ rest = 'i' :: (intDecimal i ++ 'e' :: rest) by
      rw [EncodeBencode]; simp]
    show ParseBencodeInteger ('i' :: (intDecimal i ++ 'e' :: rest)) = .ok (.int i, rest)
    exact parseInteger_encode i rest
  | .str s, fuel, rest, _, hf => by
    rw [sizeTok] at hf
    obtain ⟨f, rfl⟩ : ∃ f, fuel = f + 1 := ⟨fuel - 1, by omega⟩
    obtain ⟨c, cs, hcn, hdig⟩ := natDecimal_head_digit s.length
    have hstream : EncodeBencode (.str s) ++ rest = c :: (cs ++ ':' :: (s ++ rest)) := by
      rw [EncodeBencode, encodeStr, hcn]
      simp
    have hback : c :: (cs ++ ':' :: (s ++ rest)) = encodeStr s ++ rest := by
      rw [encodeStr, hcn]
      simp
    rw [hstream, ParseBencodeToken]
    simp only [List.head?_cons, hdig, if_true]
    rw [hback]
    exact parseString_encode s rest
  | .list l, fuel, rest, hw, hf => by
    rw [wfTok] at hw
    rw [sizeTok] at hf
    obtain ⟨f, rfl⟩ : ∃ f, fuel = f + 1 := ⟨fuel - 1, by omega⟩
    rw [show EncodeBencode (.list l) ++ rest = 'l' :: (EncodeBencodeItems l ++ 'e' :: rest) by
      rw [EncodeBencode]; simp]
    show (match ParseBencodeList f .nil (EncodeBencodeItems l ++ 'e' :: rest) with
      | .ok (ts, r) => GoResult.ok (Token.list ts, r)
      | .err m => .err m
      | .crashed => .crashed
      | .nofuel => .nofuel) = .ok (.list l, rest)
    rw [rt_list l f .nil rest hw (by omega)]
    rfl
  | .dict d, fuel, rest, hw, hf => by
    rw [wfTok] at hw
    rw [sizeTok] at hf
    obtain ⟨f, rfl⟩ : ∃ f, fuel = f + 1 := ⟨fuel - 1, by omega⟩
    rw [show EncodeBencode (.dict d) ++ rest =
          'd' :: (flattenPairs (EncodeBencodeEntries d) ++ 'e' :: rest) by
      rw [EncodeBencode, sortPairs_entries d hw]; simp]
    show (match ParseBencodeDictionary f .nil (flattenPairs (EncodeBencodeEntries d) ++ 'e' :: rest) with
      | .ok (ds, r) => GoResult.ok (Token.dict ds, r)
      | .err m => .err m
      | .crashed => .crashed
      | .nofuel => .nofuel) = .ok (.dict d, rest)
    rw [rt_dict d f .nil rest hw (by omega) (fun k2 _ => rfl)]
    rfl

theorem rt_list : ∀ (ts : TokenList) (fuel : Nat) (acc : TokenList) (rest : List Char),
    wfTokList ts = true → sizeTokList ts ≤ fuel →
    ParseBencodeList fuel acc (EncodeBencodeItems ts ++ 'e' :: rest) = .ok (acc.append ts, rest)
  | .nil, fuel, acc, rest, _, hf => by
    rw [sizeTokList] at hf
    obtain ⟨f, rfl⟩ : ∃ f, fuel = f + 1 := ⟨fuel - 1, by omega⟩
    rw [show EncodeBencodeItems .nil ++ 'e' :: rest = 'e' :: rest by
      rw [EncodeBencodeItems]; rfl]
    show GoResult.ok (acc, rest) = .ok (acc.append .nil, rest)
    rw [tokenList_append_nil]
  | .cons t ts, fuel, acc, rest, hw, hf => by
    rw [wfTokList, Bool.and_eq_true] at hw
    rw [sizeTokList] at hf
    obtain ⟨f, rfl⟩ : ∃ f, fuel = f + 1 := ⟨fuel - 1, by omega⟩
    obtain ⟨c, cs, hc, hns, hne⟩ := encode_cons t
    have hstream : EncodeBencodeItems (.cons t ts) ++ 'e' :: rest =
        c :: (cs ++ (EncodeBencodeItems ts ++ 'e' :: rest)) := by
      rw [EncodeBencodeItems, hc]
      simp
    have hback : c :: (cs ++ (EncodeBencodeItems ts ++ 'e' :: rest)) =
        EncodeBencode t ++ (EncodeBencodeItems ts ++ 'e' :: rest) := by
      rw [hc]
      simp
    rw [hstream, ParseBencodeList]
    simp only [advanceWhitespace_cons c _ hns, List.head?_cons]
    rw [if_neg hne, hback, rt_tok t f _ hw.1 (by omega)]
    simp only [rt_list ts f (acc.append (.cons t .nil)) rest hw.2 (by omega),
      tokenList_append_assoc]
    rfl

theorem rt_dict : ∀ (ds : TokenDict) (fuel : Nat) (acc : TokenDict) (rest : List Char),
    wfTokDict ds = true → sizeTokDict ds ≤ fuel →
    (∀ k2, ds.hasKey k2 = true → acc.hasKey k2 = false) →
    ParseBencodeDictionary fuel acc (flattenPairs (EncodeBencodeEntries ds) ++ 'e' :: rest) =
      .ok (acc.concat ds, rest)
  | .nil, fuel, acc, rest, _, hf, _ => by
    rw [sizeTokDict] at hf
    obtain ⟨f, rfl⟩ : ∃ f, fuel = f + 1 := ⟨fuel - 1, by omega⟩
    rw [show flattenPairs (EncodeBencodeEntries .nil) ++ 'e' :: rest = 'e' :: rest by
      rw [EncodeBencodeEntries]; rfl]
    show GoResult.ok (acc, rest) = .ok (acc.concat .nil, rest)
    rw [tokenDict_concat_nil]
  | .cons k v ds, fuel, acc, rest, hw, hf, hfresh => by
    rw [wfTokDict, Bool.and_eq_true, Bool.and_eq_true] at hw
    obtain ⟨⟨habove, hv⟩, hds⟩ := hw
    rw [sizeTokDict] at hf
    have hvpos := sizeTok_pos v
    have hdpos := sizeTokDict_pos ds
    obtain ⟨f, rfl⟩ : ∃ f, fuel = f + 1 := ⟨fuel - 1, by omega⟩
    obtain ⟨f2, rfl⟩ : ∃ f2, f = f2 + 1 := ⟨f - 1, by omega⟩
    obtain ⟨c, cs, hcn, hdig⟩ := natDecimal_head_digit k.length
    have hkey : encodeStr k = c :: (cs ++ ':' :: k) := by
      rw [encodeStr, hcn]
      simp
    have hstream : flattenPairs (EncodeBencodeEntries (.cons k v ds)) ++ 'e' :: rest =
        c :: (cs ++ ':' :: (k ++ (EncodeBencode v ++
          (flattenPairs (EncodeBencodeEntries ds) ++ 'e' :: rest)))) := by
      rw [EncodeBencodeEntries]
      simp only [flattenPairs, List.map_cons, List.flatten_cons, hkey]
      simp
    have hback : c :: (cs ++ ':' :: (k ++ (EncodeBencode v ++
          (flattenPairs (EncodeBencodeEntries ds) ++ 'e' :: rest)))) =
        encodeStr k ++ (EncodeBencode v ++
          (flattenPairs (EncodeBencodeEntries ds) ++ 'e' :: rest)) := by
      rw [hkey]
      simp
    obtain ⟨cv, csv, hcv, hnsv, _⟩ := encode_cons v
    have hvstream : EncodeBencode v ++ (flattenPairs (EncodeBencodeEntries ds) ++ 'e' :: rest) =
        cv :: (csv ++ (flattenPairs (EncodeBencodeEntries ds) ++ 'e' :: rest)) := by
      rw [hcv]
      simp
    have hacck : acc.hasKey k = false := by
      refine hfresh k ?_
      rw [TokenDict.hasKey]
      simp
    have hfresh2 : ∀ k2, ds.hasKey k2 = true →
        (acc.concat (.cons k v .nil)).hasKey k2 = false := by
      intro k2 hk2
      rw [tokenDict_hasKey_concat]
      have h1 : acc.hasKey k2 = false := by
        refine hfresh k2 ?_
        rw [TokenDict.hasKey, hk2]
        simp
      have hne2 : k ≠ k2 := strLtB_ne k k2 (dictKeysAbove_hasKey k ds k2 habove hk2)
      rw [h1, TokenDict.hasKey, TokenDict.hasKey]
      simp [hne2]
    rw [hstream, ParseBencodeDictionary]
    simp only [advanceWhitespace_cons c _ (isDigitChar_not_space c hdig), List.head?_cons]
    rw [if_neg (isDigitChar_ne_e c hdig), ParseBencodeToken]
    simp only [List.head?_cons, hdig, if_true]
    rw [hback, parseString_encode k _]
    simp only [hvstream, advanceWhitespace_cons cv _ hnsv]
    rw [← hvstream, rt_tok v (f2 + 1) _ hv (by omega)]
    simp only [tokenDict_set_fresh acc k v hacck,
      rt_dict ds (f2 + 1) (acc.concat (.cons k v .nil)) rest hds (by omega) hfresh2,
      tokenDict_concat_assoc]
    rfl

end

theorem decodeLoop_single (t : Token) (hw : wfTok t = true) :
    ∀ fuel, sizeTok t + 1 ≤ fuel →
    DecodeBencodeLoop fuel .nil (EncodeBencode t) = .ok (.cons t .nil) := by
  intro fuel hf
  have hpos := sizeTok_pos t
  obtain ⟨f, rfl⟩ : ∃ f, fuel = f + 1 := ⟨fuel - 1, by omega⟩
  obtain ⟨f2, rfl⟩ : ∃ f2, f = f2 + 1 := ⟨f - 1, by omega⟩
  obtain ⟨c, cs, hc, hns, _⟩ := encode_cons t
  have hparse : ParseBencodeToken (f2 + 1) (EncodeBencode t) = .ok (t, []) := by
    have := rt_tok t (f2 + 1) [] hw (by omega)
    simpa using this
  rw [hc, DecodeBencodeLoop]
  simp only [advanceWhitespace_cons c cs hns]
  rw [← hc]
  simp only [hparse]
  rfl

/-- Claim C7: for every well-formed value built from integers, byte
strings, lists and dictionaries with strictly ascending keys at every
depth, decoding its encoding succeeds and yields exactly that single
token. -/
theorem C7_bencode_roundtrip (t : Token) (h : wfTok t = true) :
    DecodeBencode (EncodeBencode t) = .ok (.cons t .nil) := by
  have hsize := size_le_tok t h
  rw [DecodeBencode]
  exact decodeLoop_single t h ((EncodeBencode t).length + 1) (by omega)

/-- Witness for C7 at a concrete nested dictionary value. -/
theorem C7_bencode_roundtrip_witness :
    wfTok (.dict (.cons (("cow").toList) (.str (("moo").toList))
      (.cons (("spam").toList)
        (.list (.cons (.int (-3)) (.cons (.str (("eggs").toList)) .nil))) .nil))) = true ∧
    DecodeBencode (EncodeBencode (.dict (.cons (("cow").toList) (.str (("moo").toList))
      (.cons (("spam").toList)
        (.list (.cons (.int (-3)) (.cons (.str (("eggs").toList)) .nil))) .nil)))) =
      .ok (.cons (.dict (.cons (("cow").toList) (.str (("moo").toList))
        (.cons (("spam").toList)
          (.list (.cons (.int (-3)) (.cons (.str (("eggs").toList)) .nil))) .nil))) .nil) :=
  ⟨by rfl,
   C7_bencode_roundtrip (.dict (.cons (("cow").toList) (.str (("moo").toList))
     (.cons (("spam").toList)
       (.list (.cons (.int (-3)) (.cons (.str (("eggs").toList)) .nil))) .nil))) (by rfl)⟩
